import Mathlib

/-!
Shallow embedding of `backend/main.py` of the family-share-source plugin.

The module is a thin I/O shim: a JSON-file key-value store
(`storage_get` / `storage_set`) and an owner-name resolver
(`resolve_owner_names`) with a cache persisted in the same JSON document
under the reserved key `sfs.ownerNames.v1`.

Modelling conventions:
- JSON documents are the inductive `JValue` (numbers are modelled as
  integers; floating-point literals are not modelled and are treated as a
  parse failure by `loads`, which no claim depends on).
- Python exceptions that escape to the caller are modelled with
  `Except Exn`; exceptions that the source catches are folded into the
  branch the `except` clause takes.
- The outside world is a `World`: the persisted file (`FileState`),
  an oracle saying whether a file write succeeds (`writeOk`), and the
  network (`net`, mapping a steam id to the text of the `steamID` XML
  field of the fetched profile, with `Option.none` standing for any
  network or XML-parse exception).
- `print` diagnostics and `_ensure_dir` (directory creation) have no
  observable effect in this model and are omitted.
-/

namespace SFS

mutual

/-- A JSON value, as produced by Python's `json.load`/`json.loads`.
Objects and arrays carry their own list types so that functions over
`JValue` are plain mutual structural recursions. -/
inductive JValue where
  | null
  | bool (b : Bool)
  | num (n : Int)
  | str (s : String)
  | arr (xs : JList)
  | obj (kvs : JPairs)

inductive JList where
  | nil
  | cons (hd : JValue) (tl : JList)

inductive JPairs where
  | nil
  | cons (k : String) (v : JValue) (tl : JPairs)

end

/-- The double-quote character. -/
def quoteChar : Char := Char.ofNat 34

/-- The backslash character. -/
def backslashChar : Char := Char.ofNat 92

/-- Lower-case hexadecimal digit for `n < 16`. -/
def hexDigit (n : Nat) : Char :=
  if n < 10 then Char.ofNat (48 + n) else Char.ofNat (87 + n)

/-- Escape one character the way Python's `json.dumps` with
`ensure_ascii=False` does: quote, backslash and control characters are
escaped, everything else is kept verbatim. -/
def escChar (c : Char) : String :=
  if c = quoteChar then String.singleton backslashChar ++ String.singleton quoteChar
  else if c = backslashChar then String.singleton backslashChar ++ String.singleton backslashChar
  else if c = Char.ofNat 10 then "\\n"
  else if c = Char.ofNat 9 then "\\t"
  else if c = Char.ofNat 13 then "\\r"
  else if c = Char.ofNat 8 then "\\b"
  else if c = Char.ofNat 12 then "\\f"
  else if c.toNat < 32 then
    "\\u00" ++ String.singleton (hexDigit (c.toNat / 16)) ++ String.singleton (hexDigit (c.toNat % 16))
  else String.singleton c

/-- Escape a whole string for JSON output. -/
def escString (s : String) : String :=
  String.join (s.toList.map escChar)

/-- A JSON string literal: `escString` between double quotes. -/
def jquote (s : String) : String :=
  String.singleton quoteChar ++ escString s ++ String.singleton quoteChar

mutual

/-- Python's `json.dumps(..., ensure_ascii=False)` with the default
separators `", "` and `": "` (the form used by `storage_set` and
`resolve_owner_names`; `_write_all`'s `indent=2` layout is not observable
in this model, which keeps the file as a parsed `JValue`). -/
def dumps : JValue → String
  | .null => "null"
  | .bool true => "true"
  | .bool false => "false"
  | .num n => toString n
  | .str s => jquote s
  | .arr xs => "[" ++ dumpsL xs ++ "]"
  | .obj kvs => "\x7b" ++ dumpsP kvs ++ "\x7d"

def dumpsL : JList → String
  | .nil => ""
  | .cons v .nil => dumps v
  | .cons v tl => dumps v ++ ", " ++ dumpsL tl

def dumpsP : JPairs → String
  | .nil => ""
  | .cons k v .nil => jquote k ++ ": " ++ dumps v
  | .cons k v tl => jquote k ++ ": " ++ dumps v ++ ", " ++ dumpsP tl

end

/-- `kvs.get k` on a Python dict modelled as ordered key/value pairs
(keys of a dict built by `json.load` or by this module are unique; on a
list with duplicate keys the first occurrence is the dict's entry). -/
def lookupP (kvs : JPairs) (k : String) : Option JValue :=
  match kvs with
  | .nil => Option.none
  | .cons k' v tl => if k' = k then some v else lookupP tl k

/-- `kvs[k] = v` on a Python dict: an existing key keeps its position and
gets the new value, a new key is appended. -/
def setP (kvs : JPairs) (k : String) (v : JValue) : JPairs :=
  match kvs with
  | .nil => .cons k v .nil
  | .cons k' v' tl => if k' = k then .cons k v tl else .cons k' v' (setP tl k v)

/-- `m.get k` on a Python dict of strings (same ordered-pairs model). -/
def lookupS (m : List (String × String)) (k : String) : Option String :=
  match m with
  | [] => Option.none
  | (k', v) :: tl => if k' = k then some v else lookupS tl k

/-- `m[k] = v` on a Python dict of strings. -/
def setS (m : List (String × String)) (k : String) (v : String) : List (String × String) :=
  match m with
  | [] => [(k, v)]
  | (k', v') :: tl => if k' = k then (k, v) :: tl else (k', v') :: setS tl k v

/-- A `dict[str, str]` turned into the `JValue` object `json.dumps`
serializes. -/
def jpairsOfMap (m : List (String × String)) : JPairs :=
  match m with
  | [] => .nil
  | (k, v) :: tl => .cons k (.str v) (jpairsOfMap tl)

/-- The JSON object holding a `dict[str, str]`. -/
def jsonOfMap (m : List (String × String)) : JValue :=
  .obj (jpairsOfMap m)

/-- JSON insignificant whitespace. -/
def isJsonWs (c : Char) : Bool :=
  c = Char.ofNat 32 || c = Char.ofNat 9 || c = Char.ofNat 10 || c = Char.ofNat 13

/-- Drop leading JSON whitespace. -/
def skipWs : List Char → List Char
  | [] => []
  | c :: rest => if isJsonWs c then skipWs rest else c :: rest

/-- Decode one JSON string-escape character (`\uXXXX` escapes are not
modelled; no claim depends on them). -/
def unescChar (c : Char) : Option Char :=
  if c = quoteChar then some quoteChar
  else if c = backslashChar then some backslashChar
  else if c = Char.ofNat 47 then some (Char.ofNat 47)
  else if c = Char.ofNat 110 then some (Char.ofNat 10)
  else if c = Char.ofNat 116 then some (Char.ofNat 9)
  else if c = Char.ofNat 114 then some (Char.ofNat 13)
  else if c = Char.ofNat 98 then some (Char.ofNat 8)
  else if c = Char.ofNat 102 then some (Char.ofNat 12)
  else Option.none

/-- Parse the body of a JSON string literal (the opening quote already
consumed); returns the decoded characters and the rest of the input. -/
def parseStrChars : List Char → Option (List Char × List Char)
  | [] => Option.none
  | c :: rest =>
    if c = quoteChar then some ([], rest)
    else if c = backslashChar then
      match rest with
      | [] => Option.none
      | e :: rest2 =>
        match unescChar e with
        | some d =>
          match parseStrChars rest2 with
          | some (cs, rem) => some (d :: cs, rem)
          | Option.none => Option.none
        | Option.none => Option.none
    else
      match parseStrChars rest with
      | some (cs, rem) => some (c :: cs, rem)
      | Option.none => Option.none

/-- Split a leading run of decimal digits from the input. -/
def takeDigits : List Char → List Char × List Char
  | [] => ([], [])
  | c :: rest =>
    if c.isDigit then
      match takeDigits rest with
      | (ds, rem) => (c :: ds, rem)
    else ([], c :: rest)

/-- The number a run of decimal digits denotes. -/
def digitsToNat (acc : Nat) : List Char → Nat
  | [] => acc
  | c :: rest => digitsToNat (acc * 10 + (c.toNat - 48)) rest

/-- Parse a nonempty run of decimal digits. -/
def parseDigits (input : List Char) : Option (Nat × List Char) :=
  match takeDigits input with
  | ([], _) => Option.none
  | (ds, rem) => some (digitsToNat 0 ds, rem)

/-- Whether `pre` is an initial segment of the input; if so, return what
follows it. -/
def dropLit : List Char → List Char → Option (List Char)
  | [], input => some input
  | _ :: _, [] => Option.none
  | p :: ps, c :: rest => if c = p then dropLit ps rest else Option.none

/-- Build a Python dict from key/value pairs in source order by repeated
insertion: duplicate keys keep their first position and take the last
value, as in CPython. -/
def buildDict (acc : JPairs) : List (String × JValue) → JPairs
  | [] => acc
  | (k, v) :: tl => buildDict (setP acc k v) tl

mutual

/-- Fuel-indexed JSON value parser (the model of Python's `json.loads`;
`loads` below supplies fuel large enough for any input, so running out of
fuel only happens on inputs that are rejected anyway). -/
def parseVal : Nat → List Char → Option (JValue × List Char)
  | 0, _ => Option.none
  | fuel + 1, input =>
    match skipWs input with
    | [] => Option.none
    | c :: rest =>
      if c = quoteChar then
        match parseStrChars rest with
        | some (cs, rem) => some (.str (String.mk cs), rem)
        | Option.none => Option.none
      else if c = Char.ofNat 123 then
        match skipWs rest with
        | d :: rem2 =>
          if d = Char.ofNat 125 then some (.obj .nil, rem2)
          else
            match parseObjItems fuel (d :: rem2) with
            | some (kvs, rem) => some (.obj (buildDict .nil kvs), rem)
            | Option.none => Option.none
        | [] => Option.none
      else if c = Char.ofNat 91 then
        match skipWs rest with
        | d :: rem2 =>
          if d = Char.ofNat 93 then some (.arr .nil, rem2)
          else
            match parseArrItems fuel (d :: rem2) with
            | some (xs, rem) => some (.arr xs, rem)
            | Option.none => Option.none
        | [] => Option.none
      else if c = Char.ofNat 110 then
        match dropLit ['u', 'l', 'l'] rest with
        | some rem => some (.null, rem)
        | Option.none => Option.none
      else if c = Char.ofNat 116 then
        match dropLit ['r', 'u', 'e'] rest with
        | some rem => some (.bool true, rem)
        | Option.none => Option.none
      else if c = Char.ofNat 102 then
        match dropLit ['a', 'l', 's', 'e'] rest with
        | some rem => some (.bool false, rem)
        | Option.none => Option.none
      else if c = Char.ofNat 45 then
        match parseDigits rest with
        | some (n, rem) => some (.num (-(n : Int)), rem)
        | Option.none => Option.none
      else if c.isDigit then
        match parseDigits (c :: rest) with
        | some (n, rem) => some (.num (n : Int), rem)
        | Option.none => Option.none
      else Option.none

/-- Parse the items of a nonempty JSON array, up to and including the
closing bracket. -/
def parseArrItems : Nat → List Char → Option (JList × List Char)
  | 0, _ => Option.none
  | fuel + 1, input =>
    match parseVal fuel input with
    | some (v, rem) =>
      match skipWs rem with
      | c :: rest =>
        if c = Char.ofNat 44 then
          match parseArrItems fuel rest with
          | some (xs, rem2) => some (.cons v xs, rem2)
          | Option.none => Option.none
        else if c = Char.ofNat 93 then some (.cons v .nil, rest)
        else Option.none
      | [] => Option.none
    | Option.none => Option.none

/-- Parse the members of a nonempty JSON object, up to and including the
closing brace, returned as the raw key/value pairs in source order. -/
def parseObjItems : Nat → List Char → Option (List (String × JValue) × List Char)
  | 0, _ => Option.none
  | fuel + 1, input =>
    match skipWs input with
    | c :: rest =>
      if c = quoteChar then
        match parseStrChars rest with
        | some (cs, rem) =>
          match skipWs rem with
          | d :: rem2 =>
            if d = Char.ofNat 58 then
              match parseVal fuel rem2 with
              | some (v, rem3) =>
                match skipWs rem3 with
                | e :: rem4 =>
                  if e = Char.ofNat 44 then
                    match parseObjItems fuel rem4 with
                    | some (kvs, rem5) => some ((String.mk cs, v) :: kvs, rem5)
                    | Option.none => Option.none
                  else if e = Char.ofNat 125 then some ([(String.mk cs, v)], rem4)
                  else Option.none
                | [] => Option.none
              | Option.none => Option.none
            else Option.none
          | [] => Option.none
        | Option.none => Option.none
      else Option.none
    | [] => Option.none

end

/-- Python's `json.loads`: parse a complete JSON document (trailing
whitespace allowed); `Option.none` is a raised `JSONDecodeError`. -/
def loads (s : String) : Option JValue :=
  match parseVal (2 * s.length + 4) s.toList with
  | some (v, rem) =>
    match skipWs rem with
    | [] => some v
    | _ :: _ => Option.none
  | Option.none => Option.none

/-- A Python exception escaping to the caller. -/
inductive Exn where
  | attributeError
  | typeError
deriving DecidableEq

/-- The state of the persisted file `sfs-data.json`. -/
inductive FileState where
  /-- The file does not exist (`os.path.exists` is false). -/
  | absent
  /-- Opening, reading or JSON-parsing the file raises (swallowed by
  `_load_all`, which returns an empty document). -/
  | unreadable
  /-- The file holds this parsed JSON document. -/
  | json (v : JValue)

/-- The outside world the module touches.  A failed `_write_all` is
modelled as leaving the file unchanged; the source gives no guarantee
about what a half-written file holds, and no claim depends on it. -/
structure World where
  file : FileState
  /-- Whether an attempted file write succeeds. -/
  writeOk : Bool
  /-- The network: for a steam id, `some t` means the HTTP GET of the
  profile and the XML parse succeeded and `t` is
  `root.findtext("steamID") or ""`; `Option.none` is any network or
  XML-parse exception. -/
  net : String → Option String

/-- `_load_all`: the persisted document, or an empty dict when the file
is missing or any read/parse failure occurs.  Note the source does not
check that the parsed JSON is an object, so this can return a non-dict
`JValue`. -/
def _load_all (w : World) : JValue :=
  match w.file with
  | .absent => .obj .nil
  | .unreadable => .obj .nil
  | .json v => v

/-- `_write_all`: rewrite the whole document, returning whether the write
succeeded.  (`_ensure_dir`, a directory-creation best effort, has no
observable effect here.) -/
def _write_all (data : JPairs) (w : World) : Bool × World :=
  if w.writeOk then (true, { w with file := .json (.obj data) })
  else (false, w)

/-- A Python value passed for `value` (or appearing in a `steam_ids`
list): `none` is Python `None`, `str` a string, `json` any other
JSON-serializable value, and `nonSerializable` a value on which
`json.dumps` raises. -/
inductive PyValue where
  | none
  | str (s : String)
  | json (v : JValue)
  | nonSerializable

/-- The string `storage_set` stores for a value: the value itself for a
string, its `json.dumps` serialization otherwise; `Option.none` when the
value is `None` (rejected before serializing) or `json.dumps` raises —
both make `storage_set` return `False` without writing. -/
def serializeValue : PyValue → Option String
  | .str s => some s
  | .json v => some (dumps v)
  | .none => Option.none
  | .nonSerializable => Option.none

/-- `storage_get(key)`: load the whole document and return the value at
`key` (Python returns `None` both for a missing key and a stored JSON
null; the model keeps them as `.null` as well).  The payload-dict
unwrapping layer is not modelled: claims are stated over the `key=`
keyword path, which is also what `Plugin.storage_get` uses.  On a
readable file holding a non-object JSON value, `data.get` raises
`AttributeError`. -/
def storage_get (key : Option String) (w : World) : Except Exn JValue :=
  match key with
  | Option.none => .ok .null
  | some k =>
    match _load_all w with
    | .obj kvs => .ok ((lookupP kvs k).getD .null)
    | _ => .error .attributeError

/-- `storage_set(key, value)`: reject a missing key or `None` value or a
serialization failure (returning `False` with no write); otherwise merge
the serialized value into the document and rewrite the file, returning
whether the write succeeded.  `data[key] = value` on a non-dict document
raises `TypeError`. -/
def storage_set (key : Option String) (value : PyValue) (w : World) :
    Except Exn (Bool × World) :=
  match key with
  | Option.none => .ok (false, w)
  | some k =>
    match serializeValue value with
    | Option.none => .ok (false, w)
    | some s =>
      match _load_all w with
      | .obj data => .ok (_write_all (setP data k (.str s)) w)
      | _ => .error .typeError

/-- The reserved store key holding the owner-name cache. -/
def OWNER_NAME_CACHE_KEY : String := "sfs.ownerNames.v1"

/-- Whitespace as stripped by Python's `str.strip()` (the ASCII part;
the exotic Unicode space classes play no role in any claim). -/
def isPyWs (c : Char) : Bool :=
  c = Char.ofNat 32 || c = Char.ofNat 9 || c = Char.ofNat 10 || c = Char.ofNat 13 ||
  c = Char.ofNat 11 || c = Char.ofNat 12

/-- Python's `str.strip()`: drop leading and trailing whitespace. -/
def pyStrip (s : String) : String :=
  String.mk (((s.toList.dropWhile isPyWs).reverse.dropWhile isPyWs).reverse)

/-- Split a character list at every occurrence of `sep` (no collapsing,
as in Python's `str.split` with an explicit separator). -/
def splitChars (sep : Char) : List Char → List (List Char)
  | [] => [[]]
  | c :: rest =>
    match splitChars sep rest with
    | [] => [[]]
    | g :: gs => if c = sep then [] :: g :: gs else (c :: g) :: gs

/-- Python's `s.split(",")`. -/
def pySplitComma (s : String) : List String :=
  (splitChars (Char.ofNat 44) s.toList).map String.mk

/-- The loop body of `_normalize_owner_name_cache`: keep entries whose
value is a string and whose key and value are nonempty after trimming
(dict keys coming from JSON are always strings, so the source's
`isinstance(steam_id, str)` test is vacuous here). -/
def normLoop (acc : List (String × String)) : JPairs → List (String × String)
  | .nil => acc
  | .cons k v tl =>
    match v with
    | .str name =>
      let sid := pyStrip k
      let nm := pyStrip name
      if sid = "" ∨ nm = "" then normLoop acc tl
      else normLoop (setS acc sid nm) tl
    | _ => normLoop acc tl

/-- `_normalize_owner_name_cache`: a raw cache value (a JSON string is
parsed first, a parse failure becoming an empty dict), reduced to the
trimmed nonempty string-to-string entries. -/
def _normalize_owner_name_cache (raw : JValue) : List (String × String) :=
  let parsed : JValue :=
    match raw with
    | .str s => (loads s).getD (.obj .nil)
    | v => v
  match parsed with
  | .obj kvs => normLoop [] kvs
  | _ => []

/-- The dedup-and-trim loop of `_parse_steam_ids`: keep the first
occurrence of each nonempty trimmed id, in first-seen order. -/
def dedupLoop : List String → List String → List String
  | [], _ => []
  | x :: rest, seen =>
    let sid := pyStrip x
    if sid = "" ∨ sid ∈ seen then dedupLoop rest seen
    else sid :: dedupLoop rest (sid :: seen)

/-- `_parse_steam_ids`: a direct list keeps only its string elements
(and suppresses the csv); otherwise the csv is split on commas; the
result is trimmed and deduplicated preserving first-seen order.  A
non-list, non-`None` `steam_ids` behaves exactly like `Option.none`
(the `isinstance` test fails either way), so it is modelled as such. -/
def _parse_steam_ids (steam_ids : Option (List PyValue)) (steam_ids_csv : Option String) :
    List String :=
  let parsed : List String :=
    match steam_ids with
    | some xs =>
      xs.filterMap (fun x => match x with | .str s => some s | _ => Option.none)
    | Option.none =>
      match steam_ids_csv with
      | some csv => pySplitComma csv
      | Option.none => []
  dedupLoop parsed []

/-- `_fetch_owner_name_from_profile_xml`: fetch the profile XML and
extract the trimmed `steamID` field; empty after trimming (or any
exception, `w.net` returning `Option.none`) is a failure. -/
def _fetch_owner_name_from_profile_xml (net : String → Option String) (steam_id : String) :
    Option String :=
  match net steam_id with
  | Option.none => Option.none
  | some body =>
    if pyStrip body = "" then Option.none else some (pyStrip body)

/-- Python string truthiness of an optional string, as in the source's
`if cached:` and `if name:` tests. -/
def strTruthy : Option String → Option String
  | some n => if n = "" then Option.none else some n
  | Option.none => Option.none

/-- What the loop body of `resolve_owner_names` finds in the cache for
one id: nothing under force-refresh, else the truthy cached name. -/
def cacheHit (force : Bool) (cache : List (String × String)) (id : String) : Option String :=
  strTruthy (if force then Option.none else lookupS cache id)

/-- Whether the loop body of `resolve_owner_names` issues a network
fetch for one id: exactly when there is no truthy cache hit. -/
def fetchNeeded (force : Bool) (cache : List (String × String)) (id : String) : Bool :=
  (cacheHit force cache id).isNone

/-- The name one iteration of `resolve_owner_names` resolves an id to:
the cache hit if any, else the fetched name. -/
def resolvedName (net : String → Option String) (force : Bool)
    (cache : List (String × String)) (id : String) : Option String :=
  match cacheHit force cache id with
  | some n => some n
  | Option.none => _fetch_owner_name_from_profile_xml net id

/-- The per-id loop of `resolve_owner_names`, over the remaining ids and
the current cache, result and `cache_updated` flag.  Returns the final
cache, result, `cache_updated`, and the list of ids a fetch was issued
for (in order). -/
def resolveLoop (net : String → Option String) (force : Bool) :
    List String → List (String × String) → List (String × String) → Bool →
    List (String × String) × List (String × String) × Bool × List String
  | [], cache, result, updated => (cache, result, updated, [])
  | id :: rest, cache, result, updated =>
    match cacheHit force cache id with
    | some n => resolveLoop net force rest cache (setS result id n) updated
    | Option.none =>
      match _fetch_owner_name_from_profile_xml net id with
      | some name =>
        match resolveLoop net force rest (setS cache id name) (setS result id name) true with
        | (c, r, u, f) => (c, r, u, id :: f)
      | Option.none =>
        match resolveLoop net force rest cache result updated with
        | (c, r, u, f) => (c, r, u, id :: f)

/-- What one call of `resolve_owner_names` returns and does.  `ret` is
the Python return value; `resultMap` and `cacheMap` are the `result` and
`owner_name_cache` dicts it ends with; `readDoc`, `fetched` and
`written` record the observable effects (whether the store was loaded,
which ids were fetched over the network, and the document given to
`_write_all` when the cache was rewritten). -/
structure ResolveOut where
  ret : String
  resultMap : List (String × String)
  cacheMap : List (String × String)
  world : World
  readDoc : Bool
  fetched : List String
  written : Option JPairs

/-- `resolve_owner_names(steam_ids | steam_ids_csv, force_refresh)`:
an empty parsed id list short-circuits to `"{}"` with no effect at all;
otherwise the store is loaded, the normalized cache consulted (unless
forced), missing names fetched, and—when any fetch succeeded—the cache
re-serialized into the document and the store rewritten.  Only
successfully resolved ids appear in the returned mapping.  As in
`storage_get`, `data.get` on a non-dict document raises. -/
def resolve_owner_names (steam_ids : Option (List PyValue)) (steam_ids_csv : Option String)
    (force_refresh : Bool) (w : World) : Except Exn ResolveOut :=
  let normalized_ids := _parse_steam_ids steam_ids steam_ids_csv
  if normalized_ids = [] then
    .ok ⟨"\x7b\x7d", [], [], w, false, [], Option.none⟩
  else
    match _load_all w with
    | .obj data =>
      let cache0 := _normalize_owner_name_cache ((lookupP data OWNER_NAME_CACHE_KEY).getD .null)
      match resolveLoop w.net force_refresh normalized_ids cache0 [] false with
      | (cache, result, updated, fetched) =>
        if updated then
          let data' := setP data OWNER_NAME_CACHE_KEY (.str (dumps (jsonOfMap cache)))
          match _write_all data' w with
          | (_, w') =>
            .ok ⟨dumps (jsonOfMap result), result, cache, w', true, fetched, some data'⟩
        else
          .ok ⟨dumps (jsonOfMap result), result, cache, w, true, fetched, Option.none⟩
    | _ => .error .attributeError

/-! ### Dictionary lemmas -/

theorem lookupS_setS_self (m : List (String × String)) (k : String) (v : String) :
    lookupS (setS m k v) k = some v := by
  induction m with
  | nil => simp [setS, lookupS]
  | cons hd tl ih =>
    obtain ⟨k', v'⟩ := hd
    by_cases h : k' = k
    · simp [setS, h, lookupS]
    · simp [setS, h, lookupS, ih]

theorem lookupS_setS_ne (m : List (String × String)) (k k' : String) (v : String)
    (h : k' ≠ k) : lookupS (setS m k v) k' = lookupS m k' := by
  induction m with
  | nil => simp [setS, lookupS, Ne.symm h]
  | cons hd tl ih =>
    obtain ⟨k₀, v₀⟩ := hd
    by_cases hk : k₀ = k
    · subst hk
      simp [setS, lookupS, Ne.symm h]
    · simp [setS, hk, lookupS, ih]

theorem lookupS_setS_cases (m : List (String × String)) (k k' : String) (v n : String)
    (h : lookupS (setS m k v) k' = some n) :
    (k' = k ∧ n = v) ∨ lookupS m k' = some n := by
  by_cases hk : k' = k
  · subst hk
    rw [lookupS_setS_self] at h
    exact Or.inl ⟨rfl, (Option.some_inj.mp h).symm⟩
  · rw [lookupS_setS_ne m k k' v hk] at h
    exact Or.inr h

theorem lookupP_setP_self : ∀ (kvs : JPairs) (k : String) (v : JValue),
    lookupP (setP kvs k v) k = some v
  | .nil, k, v => by simp [setP, lookupP]
  | .cons k' v' tl, k, v => by
    by_cases h : k' = k
    · simp [setP, h, lookupP]
    · simp [setP, h, lookupP, lookupP_setP_self tl k v]

theorem lookupP_setP_ne : ∀ (kvs : JPairs) (k k' : String) (v : JValue),
    k' ≠ k → lookupP (setP kvs k v) k' = lookupP kvs k'
  | .nil, k, k', v, h => by simp [setP, lookupP, Ne.symm h]
  | .cons k₀ v₀ tl, k, k', v, h => by
    by_cases hk : k₀ = k
    · subst hk
      simp [setP, lookupP, Ne.symm h]
    · simp [setP, hk, lookupP, lookupP_setP_ne tl k k' v h]

/-! ### `_parse_steam_ids` lemmas -/

theorem dedupLoop_subset_cond (l : List String) (seen : List String) (s : String)
    (h : s ∈ dedupLoop l seen) : s ∉ seen ∧ s ≠ "" := by
  induction l generalizing seen with
  | nil => simp [dedupLoop] at h
  | cons x rest ih =>
    rw [dedupLoop] at h
    by_cases hc : pyStrip x = "" ∨ pyStrip x ∈ seen
    · rw [if_pos hc] at h
      exact ih seen h
    · rw [if_neg hc] at h
      push_neg at hc
      rcases List.mem_cons.mp h with h | h
      · subst h
        exact ⟨hc.2, hc.1⟩
      · have hrec := ih (pyStrip x :: seen) h
        exact ⟨fun hs => hrec.1 (List.mem_cons_of_mem _ hs), hrec.2⟩

theorem dedupLoop_nodup (l : List String) (seen : List String) :
    (dedupLoop l seen).Nodup := by
  induction l generalizing seen with
  | nil => simp [dedupLoop]
  | cons x rest ih =>
    rw [dedupLoop]
    by_cases hc : pyStrip x = "" ∨ pyStrip x ∈ seen
    · rw [if_pos hc]; exact ih seen
    · rw [if_neg hc]
      refine List.nodup_cons.mpr ⟨fun hmem => ?_, ih _⟩
      exact (dedupLoop_subset_cond rest _ _ hmem).1 (List.mem_cons_self _ _)

theorem parse_steam_ids_nodup (ids : Option (List PyValue)) (csv : Option String) :
    (_parse_steam_ids ids csv).Nodup := by
  unfold _parse_steam_ids
  exact dedupLoop_nodup _ []

theorem parse_steam_ids_ne_empty (ids : Option (List PyValue)) (csv : Option String)
    (s : String) (h : s ∈ _parse_steam_ids ids csv) : s ≠ "" := by
  unfold _parse_steam_ids at h
  exact (dedupLoop_subset_cond _ _ _ h).2

/-! ### Normalized-cache and fetch lemmas -/

theorem normLoop_val_ne : ∀ (kvs : JPairs) (acc : List (String × String)),
    (∀ i n, lookupS acc i = some n → n ≠ "") →
    ∀ i n, lookupS (normLoop acc kvs) i = some n → n ≠ ""
  | .nil, _, hacc, i, n, h => hacc i n h
  | .cons k v tl, acc, hacc, i, n, h => by
    cases v with
    | str name =>
      rw [normLoop] at h
      by_cases hc : pyStrip k = "" ∨ pyStrip name = ""
      · rw [if_pos hc] at h
        exact normLoop_val_ne tl acc hacc i n h
      · rw [if_neg hc] at h
        push_neg at hc
        refine normLoop_val_ne tl (setS acc (pyStrip k) (pyStrip name)) ?_ i n h
        intro i' n' h'
        rcases lookupS_setS_cases acc (pyStrip k) i' (pyStrip name) n' h' with ⟨_, hn⟩ | hmem
        · exact hn ▸ hc.2
        · exact hacc i' n' hmem
    | null => exact normLoop_val_ne tl acc hacc i n (by simpa [normLoop] using h)
    | bool b => exact normLoop_val_ne tl acc hacc i n (by simpa [normLoop] using h)
    | num m => exact normLoop_val_ne tl acc hacc i n (by simpa [normLoop] using h)
    | arr xs => exact normLoop_val_ne tl acc hacc i n (by simpa [normLoop] using h)
    | obj kvs' => exact normLoop_val_ne tl acc hacc i n (by simpa [normLoop] using h)

theorem normalize_val_ne (raw : JValue) (i n : String)
    (h : lookupS (_normalize_owner_name_cache raw) i = some n) : n ≠ "" := by
  unfold _normalize_owner_name_cache at h
  rcases hp : (match raw with
    | .str s => (loads s).getD (.obj .nil)
    | v => v) with _ | _ | _ | _ | _ | kvs <;> rw [hp] at h <;>
    simp [lookupS] at h
  exact normLoop_val_ne kvs [] (by intro i' n' h'; simp [lookupS] at h') i n h

theorem fetch_val_ne (net : String → Option String) (id n : String)
    (h : _fetch_owner_name_from_profile_xml net id = some n) : n ≠ "" := by
  cases hb : net id with
  | none => simp [_fetch_owner_name_from_profile_xml, hb] at h
  | some body =>
    simp only [_fetch_owner_name_from_profile_xml, hb] at h
    by_cases he : pyStrip body = ""
    · simp [he] at h
    · rw [if_neg he] at h
      simp only [Option.some_inj] at h
      exact h ▸ he

theorem strTruthy_ne (o : Option String) (n : String) (h : strTruthy o = some n) : n ≠ "" := by
  cases o with
  | none => exact absurd h (by simp [strTruthy])
  | some m =>
    by_cases he : m = ""
    · rw [strTruthy, if_pos he] at h
      exact absurd h (by simp)
    · rw [strTruthy, if_neg he] at h
      simp only [Option.some_inj] at h
      exact h ▸ he

theorem cacheHit_ne (force : Bool) (cache : List (String × String)) (id n : String)
    (h : cacheHit force cache id = some n) : n ≠ "" :=
  strTruthy_ne _ n h

theorem cacheHit_congr (force : Bool) (cache cache' : List (String × String)) (id : String)
    (h : lookupS cache id = lookupS cache' id) :
    cacheHit force cache id = cacheHit force cache' id := by
  unfold cacheHit
  rw [h]

theorem resolvedName_congr (net : String → Option String) (force : Bool)
    (cache cache' : List (String × String)) (id : String)
    (h : lookupS cache id = lookupS cache' id) :
    resolvedName net force cache id = resolvedName net force cache' id := by
  unfold resolvedName
  rw [cacheHit_congr force cache cache' id h]

theorem fetchNeeded_congr (force : Bool) (cache cache' : List (String × String)) (id : String)
    (h : lookupS cache id = lookupS cache' id) :
    fetchNeeded force cache id = fetchNeeded force cache' id := by
  unfold fetchNeeded
  rw [cacheHit_congr force cache cache' id h]

/-! ### `resolveLoop` lemmas -/

/-- Ids not in the processed list leave the loop state untouched: their
cache and result entries are unchanged and they are never fetched. -/
theorem resolveLoop_frame (net : String → Option String) (force : Bool) (id : String)
    (ids : List String) : ∀ (cache result : List (String × String)) (upd : Bool)
      (c r : List (String × String)) (u : Bool) (f : List String),
      id ∉ ids → resolveLoop net force ids cache result upd = (c, r, u, f) →
      lookupS c id = lookupS cache id ∧ lookupS r id = lookupS result id ∧ id ∉ f := by
  induction ids with
  | nil =>
    intro cache result upd c r u f _ h
    rw [resolveLoop] at h
    simp only [Prod.mk.injEq] at h
    obtain ⟨h1, h2, h3, h4⟩ := h
    exact ⟨h1 ▸ rfl, h2 ▸ rfl, h4 ▸ List.not_mem_nil id⟩
  | cons a rest ih =>
    intro cache result upd c r u f hmem h
    have hne : id ≠ a := fun hh => hmem (hh ▸ List.mem_cons_self a rest)
    have hrest : id ∉ rest := fun hh => hmem (List.mem_cons_of_mem a hh)
    rw [resolveLoop] at h
    cases hh : cacheHit force cache a with
    | some n =>
      simp only [hh] at h
      obtain ⟨hc, hr, hf⟩ := ih cache (setS result a n) upd c r u f hrest h
      exact ⟨hc, hr.trans (lookupS_setS_ne result a id n hne), hf⟩
    | none =>
      simp only [hh] at h
      cases hfet : _fetch_owner_name_from_profile_xml net a with
      | some name =>
        simp only [hfet] at h
        rcases hrl : resolveLoop net force rest (setS cache a name) (setS result a name) true
          with ⟨c', r', u', f'⟩
        rw [hrl] at h
        simp only [Prod.mk.injEq] at h
        obtain ⟨h1, h2, h3, h4⟩ := h
        obtain ⟨hc, hr, hf⟩ := ih (setS cache a name) (setS result a name) true c' r' u' f' hrest hrl
        refine ⟨?_, ?_, ?_⟩
        · exact h1 ▸ hc.trans (lookupS_setS_ne cache a id name hne)
        · exact h2 ▸ hr.trans (lookupS_setS_ne result a id name hne)
        · rw [← h4]
          intro hin
          rcases List.mem_cons.mp hin with hin | hin
          · exact hne hin
          · exact hf hin
      | none =>
        simp only [hfet] at h
        rcases hrl : resolveLoop net force rest cache result upd with ⟨c', r', u', f'⟩
        rw [hrl] at h
        simp only [Prod.mk.injEq] at h
        obtain ⟨h1, h2, h3, h4⟩ := h
        obtain ⟨hc, hr, hf⟩ := ih cache result upd c' r' u' f' hrest hrl
        refine ⟨h1 ▸ hc, h2 ▸ hr, ?_⟩
        rw [← h4]
        intro hin
        rcases List.mem_cons.mp hin with hin | hin
        · exact hne hin
        · exact hf hin

/-- What the loop does to one of the (deduplicated) ids it processes:
its result entry is its `resolvedName` when that is defined and its
initial result entry otherwise; an unresolved id's cache entry is
untouched; and it is fetched exactly when it has no truthy cache hit. -/
theorem resolveLoop_mem (net : String → Option String) (force : Bool) (id : String)
    (ids : List String) : ∀ (cache result : List (String × String)) (upd : Bool)
      (c r : List (String × String)) (u : Bool) (f : List String),
      ids.Nodup → id ∈ ids → resolveLoop net force ids cache result upd = (c, r, u, f) →
      (∀ n, resolvedName net force cache id = some n → lookupS r id = some n)
      ∧ (resolvedName net force cache id = Option.none → lookupS r id = lookupS result id)
      ∧ (resolvedName net force cache id = Option.none → lookupS c id = lookupS cache id)
      ∧ (id ∈ f ↔ fetchNeeded force cache id = true) := by
  induction ids with
  | nil =>
    intro cache result upd c r u f _ hmem _
    exact absurd hmem (List.not_mem_nil id)
  | cons a rest ih =>
    intro cache result upd c r u f hnd hmem h
    obtain ⟨hna, hndr⟩ := List.nodup_cons.mp hnd
    rw [resolveLoop] at h
    rcases List.mem_cons.mp hmem with heq | hmr
    · -- the id under scrutiny is the head: its own iteration decides it
      subst heq
      cases hh : cacheHit force cache id with
      | some n =>
        simp only [hh] at h
        obtain ⟨hc, hr, hf⟩ := resolveLoop_frame net force id rest cache
          (setS result id n) upd c r u f hna h
        refine ⟨?_, ?_, ?_, ?_⟩
        · intro n' hn'
          simp only [resolvedName, hh, Option.some_inj] at hn'
          rw [hr, lookupS_setS_self, hn']
        · intro habs
          simp [resolvedName, hh] at habs
        · intro _
          exact hc
        · simp [hf, fetchNeeded, hh]
      | none =>
        simp only [hh] at h
        cases hfet : _fetch_owner_name_from_profile_xml net id with
        | some name =>
          simp only [hfet] at h
          rcases hrl : resolveLoop net force rest (setS cache id name) (setS result id name) true
            with ⟨c', r', u', f'⟩
          rw [hrl] at h
          simp only [Prod.mk.injEq] at h
          obtain ⟨h1, h2, h3, h4⟩ := h
          obtain ⟨hc, hr, hf⟩ := resolveLoop_frame net force id rest (setS cache id name)
            (setS result id name) true c' r' u' f' hna hrl
          refine ⟨?_, ?_, ?_, ?_⟩
          · intro n' hn'
            simp only [resolvedName, hh, hfet, Option.some_inj] at hn'
            rw [← h2, hr, lookupS_setS_self, hn']
          · intro habs
            simp [resolvedName, hh, hfet] at habs
          · intro habs
            simp [resolvedName, hh, hfet] at habs
          · rw [← h4]
            simp [fetchNeeded, hh, List.mem_cons]
        | none =>
          simp only [hfet] at h
          rcases hrl : resolveLoop net force rest cache result upd with ⟨c', r', u', f'⟩
          rw [hrl] at h
          simp only [Prod.mk.injEq] at h
          obtain ⟨h1, h2, h3, h4⟩ := h
          obtain ⟨hc, hr, hf⟩ := resolveLoop_frame net force id rest cache result upd
            c' r' u' f' hna hrl
          refine ⟨?_, ?_, ?_, ?_⟩
          · intro n' hn'
            simp [resolvedName, hh, hfet] at hn' 
          · intro _
            rw [← h2]
            exact hr
          · intro _
            rw [← h1]
            exact hc
          · rw [← h4]
            simp [fetchNeeded, hh, List.mem_cons]
    · -- the id under scrutiny is processed later; the head's iteration
      -- only touches the head's entries, which are distinct from it
      have hne : id ≠ a := fun heq => hna (heq ▸ hmr)
      cases hh : cacheHit force cache a with
      | some n =>
        simp only [hh] at h
        obtain ⟨g1, g2, g3, g4⟩ := ih cache (setS result a n) upd c r u f hndr hmr h
        refine ⟨g1, ?_, g3, g4⟩
        · intro habs
          rw [g2 habs]
          exact lookupS_setS_ne result a id n hne
      | none =>
        simp only [hh] at h
        cases hfet : _fetch_owner_name_from_profile_xml net a with
        | some name =>
          simp only [hfet] at h
          rcases hrl : resolveLoop net force rest (setS cache a name) (setS result a name) true
            with ⟨c', r', u', f'⟩
          rw [hrl] at h
          simp only [Prod.mk.injEq] at h
          obtain ⟨h1, h2, h3, h4⟩ := h
          have hcac : lookupS (setS cache a name) id = lookupS cache id :=
            lookupS_setS_ne cache a id name hne
          have hres : resolvedName net force (setS cache a name) id
              = resolvedName net force cache id :=
            resolvedName_congr net force _ _ id hcac
          obtain ⟨g1, g2, g3, g4⟩ := ih (setS cache a name) (setS result a name) true
            c' r' u' f' hndr hmr hrl
          refine ⟨?_, ?_, ?_, ?_⟩
          · intro n' hn'
            rw [← h2]
            exact g1 n' (by rw [hres]; exact hn')
          · intro habs
            rw [← h2, g2 (by rw [hres]; exact habs), lookupS_setS_ne result a id name hne]
          · intro habs
            rw [← h1, g3 (by rw [hres]; exact habs), hcac]
          · rw [← h4]
            rw [fetchNeeded_congr force (setS cache a name) cache id hcac] at g4
            simp only [List.mem_cons]
            constructor
            · intro hin
              rcases hin with hin | hin
              · exact absurd hin hne
              · exact g4.mp hin
            · intro hfn
              exact Or.inr (g4.mpr hfn)
        | none =>
          simp only [hfet] at h
          rcases hrl : resolveLoop net force rest cache result upd with ⟨c', r', u', f'⟩
          rw [hrl] at h
          simp only [Prod.mk.injEq] at h
          obtain ⟨h1, h2, h3, h4⟩ := h
          obtain ⟨g1, g2, g3, g4⟩ := ih cache result upd c' r' u' f' hndr hmr hrl
          refine ⟨?_, ?_, ?_, ?_⟩
          · intro n' hn'
            rw [← h2]
            exact g1 n' hn'
          · intro habs
            rw [← h2]
            exact g2 habs
          · intro habs
            rw [← h1]
            exact g3 habs
          · rw [← h4]
            simp only [List.mem_cons]
            constructor
            · intro hin
              rcases hin with hin | hin
              · exact absurd hin hne
              · exact g4.mp hin
            · intro hfn
              exact Or.inr (g4.mpr hfn)

/-- Under force-refresh every processed id is fetched, in order. -/
theorem resolveLoop_fetched_force (net : String → Option String) (ids : List String) :
    ∀ (cache result : List (String × String)) (upd : Bool)
      (c r : List (String × String)) (u : Bool) (f : List String),
      resolveLoop net true ids cache result upd = (c, r, u, f) → f = ids := by
  induction ids with
  | nil =>
    intro cache result upd c r u f h
    rw [resolveLoop] at h
    simp only [Prod.mk.injEq] at h
    exact h.2.2.2.symm
  | cons a rest ih =>
    intro cache result upd c r u f h
    rw [resolveLoop] at h
    have hh : cacheHit true cache a = Option.none := rfl
    simp only [hh] at h
    cases hfet : _fetch_owner_name_from_profile_xml net a with
    | some name =>
      simp only [hfet] at h
      rcases hrl : resolveLoop net true rest (setS cache a name) (setS result a name) true
        with ⟨c', r', u', f'⟩
      rw [hrl] at h
      simp only [Prod.mk.injEq] at h
      rw [← h.2.2.2, ih _ _ _ c' r' u' f' hrl]
    | none =>
      simp only [hfet] at h
      rcases hrl : resolveLoop net true rest cache result upd with ⟨c', r', u', f'⟩
      rw [hrl] at h
      simp only [Prod.mk.injEq] at h
      rw [← h.2.2.2, ih _ _ _ c' r' u' f' hrl]

/-- Under force-refresh `cache_updated` ends true exactly when it started
true or some processed id's fetch succeeded. -/
theorem resolveLoop_updated_force (net : String → Option String) (ids : List String) :
    ∀ (cache result : List (String × String)) (upd : Bool)
      (c r : List (String × String)) (u : Bool) (f : List String),
      resolveLoop net true ids cache result upd = (c, r, u, f) →
      u = (upd || ids.any fun i => (_fetch_owner_name_from_profile_xml net i).isSome) := by
  induction ids with
  | nil =>
    intro cache result upd c r u f h
    rw [resolveLoop] at h
    simp only [Prod.mk.injEq] at h
    simp [← h.2.2.1]
  | cons a rest ih =>
    intro cache result upd c r u f h
    rw [resolveLoop] at h
    have hh : cacheHit true cache a = Option.none := rfl
    simp only [hh] at h
    cases hfet : _fetch_owner_name_from_profile_xml net a with
    | some name =>
      simp only [hfet] at h
      rcases hrl : resolveLoop net true rest (setS cache a name) (setS result a name) true
        with ⟨c', r', u', f'⟩
      rw [hrl] at h
      simp only [Prod.mk.injEq] at h
      rw [← h.2.2.1, ih _ _ _ c' r' u' f' hrl]
      simp [List.any_cons, hfet]
    | none =>
      simp only [hfet] at h
      rcases hrl : resolveLoop net true rest cache result upd with ⟨c', r', u', f'⟩
      rw [hrl] at h
      simp only [Prod.mk.injEq] at h
      rw [← h.2.2.1, ih _ _ _ c' r' u' f' hrl]
      simp [List.any_cons, hfet]

/-- Every name in the loop's result (and cache) is nonempty when it came
from a truthy cache hit or a successful fetch; result entries present
initially must already satisfy this. -/
theorem resolveLoop_result_val_ne (net : String → Option String) (force : Bool)
    (ids : List String) : ∀ (cache result : List (String × String)) (upd : Bool)
      (c r : List (String × String)) (u : Bool) (f : List String),
      (∀ i n, lookupS result i = some n → n ≠ "") →
      resolveLoop net force ids cache result upd = (c, r, u, f) →
      ∀ i n, lookupS r i = some n → n ≠ "" := by
  induction ids with
  | nil =>
    intro cache result upd c r u f hres h
    rw [resolveLoop] at h
    simp only [Prod.mk.injEq] at h
    exact h.2.1 ▸ hres
  | cons a rest ih =>
    intro cache result upd c r u f hres h
    rw [resolveLoop] at h
    cases hh : cacheHit force cache a with
    | some n =>
      simp only [hh] at h
      refine ih cache (setS result a n) upd c r u f ?_ h
      intro i' n' h'
      rcases lookupS_setS_cases result a i' n n' h' with ⟨_, hn⟩ | hmem
      · exact hn ▸ cacheHit_ne force cache a n hh
      · exact hres i' n' hmem
    | none =>
      simp only [hh] at h
      cases hfet : _fetch_owner_name_from_profile_xml net a with
      | some name =>
        simp only [hfet] at h
        rcases hrl : resolveLoop net force rest (setS cache a name) (setS result a name) true
          with ⟨c', r', u', f'⟩
        rw [hrl] at h
        simp only [Prod.mk.injEq] at h
        refine h.2.1 ▸ ih (setS cache a name) (setS result a name) true c' r' u' f' ?_ hrl
        intro i' n' h'
        rcases lookupS_setS_cases result a i' name n' h' with ⟨_, hn⟩ | hmem
        · exact hn ▸ fetch_val_ne net a name hfet
        · exact hres i' n' hmem
      | none =>
        simp only [hfet] at h
        rcases hrl : resolveLoop net force rest cache result upd with ⟨c', r', u', f'⟩
        rw [hrl] at h
        simp only [Prod.mk.injEq] at h
        exact h.2.1 ▸ ih cache result upd c' r' u' f' hres hrl

/-! ### Claims -/

/-- C1: for every key `k` and non-null serializable value `v`, a
successful `storage_set(k, v)` followed by `storage_get(k)` returns the
stored value: `v` itself when `v` is a string and the JSON serialization
of `v` otherwise (`serializeValue` is exactly that string). -/
theorem set_then_get (k s : String) (v : PyValue) (w w' : World)
    (hser : serializeValue v = some s)
    (hset : storage_set (some k) v w = .ok (true, w')) :
    storage_get (some k) w' = .ok (.str s) := by
  simp only [storage_set, hser] at hset
  cases hload : _load_all w with
  | obj data =>
    rw [hload] at hset
    simp only [_write_all] at hset
    by_cases hwk : w.writeOk
    · simp only [hwk, if_true, Except.ok.injEq, Prod.mk.injEq] at hset
      rw [← hset.2]
      simp [storage_get, _load_all, lookupP_setP_self]
    · simp [hwk] at hset
  | null => rw [hload] at hset; simp at hset
  | bool b => rw [hload] at hset; simp at hset
  | num n => rw [hload] at hset; simp at hset
  | str s' => rw [hload] at hset; simp at hset
  | arr xs => rw [hload] at hset; simp at hset

/-- Witness for C1 at a concrete input. -/
theorem set_then_get_witness :
    serializeValue (PyValue.str "hello") = some "hello" ∧
    storage_set (some "k") (PyValue.str "hello") ⟨.absent, true, fun _ => Option.none⟩
      = .ok (true, ⟨.json (.obj (.cons "k" (.str "hello") .nil)), true, fun _ => Option.none⟩) ∧
    storage_get (some "k") ⟨.json (.obj (.cons "k" (.str "hello") .nil)), true, fun _ => Option.none⟩
      = .ok (.str "hello") :=
  ⟨rfl, rfl, set_then_get "k" "hello" (PyValue.str "hello")
    ⟨.absent, true, fun _ => Option.none⟩
    ⟨.json (.obj (.cons "k" (.str "hello") .nil)), true, fun _ => Option.none⟩ rfl rfl⟩

/-- C2: `storage_set(k, None)` is a no-op: it returns `False` and leaves
the world (hence the persisted document, hence every later
`storage_get`) exactly as it was. -/
theorem set_none_noop (k : String) (w : World) :
    storage_set (some k) PyValue.none w = .ok (false, w) := rfl

/-- C3: on a document `d`, `storage_set(k, v)` rewrites the file with the
serialization of `v` at `k`, returns whether the write succeeded
(`w.writeOk`), and every other key keeps its value. -/
theorem set_frame (k k' : String) (v : PyValue) (s : String) (w : World) (d : JPairs)
    (hser : serializeValue v = some s) (hd : _load_all w = .obj d) (hk : k' ≠ k) :
    storage_set (some k) v w = .ok (w.writeOk,
      if w.writeOk then { w with file := .json (.obj (setP d k (.str s))) } else w)
    ∧ lookupP (setP d k (.str s)) k = some (.str s)
    ∧ lookupP (setP d k (.str s)) k' = lookupP d k' := by
  refine ⟨?_, lookupP_setP_self d k (.str s), lookupP_setP_ne d k k' (.str s) hk⟩
  simp only [storage_set, hser, hd, _write_all]
  by_cases hwk : w.writeOk
  · simp [hwk]
  · simp [hwk]

/-- Witness for C3 at a concrete input. -/
theorem set_frame_witness :
    serializeValue (PyValue.str "x") = some "x" ∧
    _load_all ⟨.json (.obj (.cons "b" (.str "y") .nil)), true, fun _ => Option.none⟩
      = .obj (.cons "b" (.str "y") .nil) ∧
    storage_set (some "a") (PyValue.str "x")
        ⟨.json (.obj (.cons "b" (.str "y") .nil)), true, fun _ => Option.none⟩
      = .ok (true, ⟨.json (.obj (.cons "b" (.str "y") (.cons "a" (.str "x") .nil))), true,
          fun _ => Option.none⟩)
    ∧ lookupP (setP (.cons "b" (.str "y") .nil) "a" (.str "x")) "a" = some (.str "x")
    ∧ lookupP (setP (.cons "b" (.str "y") .nil) "a" (.str "x")) "b"
        = lookupP (.cons "b" (.str "y") .nil) "b" :=
  ⟨rfl, rfl, set_frame "a" "b" (PyValue.str "x") "x"
    ⟨.json (.obj (.cons "b" (.str "y") .nil)), true, fun _ => Option.none⟩
    (.cons "b" (.str "y") .nil) rfl rfl (by decide)⟩

/-- C4: when the parsed id list is empty, `resolve_owner_names` returns
the two-character string holding an empty JSON object and has no effect:
no file read, no write, no fetch, and an unchanged world. -/
theorem resolve_empty_ids (ids : Option (List PyValue)) (csv : Option String)
    (force : Bool) (w : World) (h : _parse_steam_ids ids csv = []) :
    resolve_owner_names ids csv force w
      = .ok ⟨"\x7b\x7d", [], [], w, false, [], Option.none⟩ := by
  simp [resolve_owner_names, h]

/-- Witness for C4 at a concrete input (a csv of only blanks). -/
theorem resolve_empty_ids_witness :
    _parse_steam_ids Option.none (some " , ") = [] ∧
    resolve_owner_names Option.none (some " , ") false ⟨.absent, true, fun _ => Option.none⟩
      = .ok ⟨"\x7b\x7d", [], [], ⟨.absent, true, fun _ => Option.none⟩, false, [], Option.none⟩ :=
  ⟨rfl, resolve_empty_ids Option.none (some " , ") false ⟨.absent, true, fun _ => Option.none⟩ rfl⟩

/-- C5: the processed id list is trimmed and duplicate-free (so each
unique nonempty id is resolved once), and concretely the csv
`"1, 1 ,2"` parses to `["1", "2"]` and resolves with exactly one fetch
for `"1"` and one for `"2"`, the result keyed by those two ids. -/
theorem resolve_dedup :
    (∀ (ids : Option (List PyValue)) (csv : Option String),
      (_parse_steam_ids ids csv).Nodup ∧ ∀ s ∈ _parse_steam_ids ids csv, s ≠ "")
    ∧ _parse_steam_ids Option.none (some "1, 1 ,2") = ["1", "2"]
    ∧ (∃ o : ResolveOut,
        resolve_owner_names Option.none (some "1, 1 ,2") false
          ⟨.absent, true, fun i => some ("N" ++ i)⟩ = .ok o ∧
        o.fetched = ["1", "2"] ∧ o.resultMap = [("1", "N1"), ("2", "N2")]) := by
  refine ⟨fun ids csv => ⟨parse_steam_ids_nodup ids csv,
    fun s hs => parse_steam_ids_ne_empty ids csv s hs⟩, rfl, ⟨_, rfl, rfl, rfl⟩⟩

/-- Witness for C5 at a concrete input. -/
theorem resolve_dedup_witness :
    ("1" ∈ _parse_steam_ids Option.none (some "1, 1 ,2")) ∧ "1" ≠ "" :=
  ⟨by decide, (resolve_dedup.1 Option.none (some "1, 1 ,2")).2 "1" (by decide)⟩

/-- C6: an id present in the normalized persisted cache is, without
force-refresh, answered from the cache: its cached name appears in the
result and no fetch is issued for it. -/
theorem resolve_cache_hit (ids : Option (List PyValue)) (csv : Option String)
    (id name : String) (w : World) (d : JPairs)
    (hd : _load_all w = .obj d)
    (hmem : id ∈ _parse_steam_ids ids csv)
    (hcache : lookupS (_normalize_owner_name_cache
      ((lookupP d OWNER_NAME_CACHE_KEY).getD .null)) id = some name) :
    ∃ o : ResolveOut, resolve_owner_names ids csv false w = .ok o ∧
      lookupS o.resultMap id = some name ∧ id ∉ o.fetched := by
  have hne : ¬(_parse_steam_ids ids csv = []) := fun he =>
    absurd (he ▸ hmem) (List.not_mem_nil id)
  have hnd := parse_steam_ids_nodup ids csv
  have hname_ne : name ≠ "" := normalize_val_ne _ id name hcache
  have hhit : cacheHit false
      (_normalize_owner_name_cache ((lookupP d OWNER_NAME_CACHE_KEY).getD .null)) id
      = some name := by
    simp [cacheHit, strTruthy, hcache, hname_ne]
  have hres : resolvedName w.net false
      (_normalize_owner_name_cache ((lookupP d OWNER_NAME_CACHE_KEY).getD .null)) id
      = some name := by
    simp [resolvedName, hhit]
  simp only [resolve_owner_names, if_neg hne, hd]
  rcases hrl : resolveLoop w.net false (_parse_steam_ids ids csv)
      (_normalize_owner_name_cache ((lookupP d OWNER_NAME_CACHE_KEY).getD .null)) [] false
    with ⟨c, r, u, f⟩
  obtain ⟨g1, g2, g3, g4⟩ := resolveLoop_mem w.net false id (_parse_steam_ids ids csv)
    (_normalize_owner_name_cache ((lookupP d OWNER_NAME_CACHE_KEY).getD .null)) [] false
    c r u f hnd hmem hrl
  have hrid : lookupS r id = some name := g1 name hres
  have hfid : id ∉ f := fun hin => by
    have := g4.mp hin
    rw [fetchNeeded, hhit] at this
    simp at this
  cases u with
  | true => exact ⟨_, rfl, hrid, hfid⟩
  | false => exact ⟨_, rfl, hrid, hfid⟩

/-- Witness for C6 at a concrete input (cache holds id `"1"`, the
network always fails, yet the name is returned with no fetch). -/
theorem resolve_cache_hit_witness :
    ∃ o : ResolveOut,
      resolve_owner_names Option.none (some "1") false
        ⟨.json (.obj (.cons OWNER_NAME_CACHE_KEY (.obj (.cons "1" (.str "Alice") .nil)) .nil)),
          true, fun _ => Option.none⟩ = .ok o ∧
      lookupS o.resultMap "1" = some "Alice" ∧ "1" ∉ o.fetched :=
  resolve_cache_hit Option.none (some "1") "1" "Alice"
    ⟨.json (.obj (.cons OWNER_NAME_CACHE_KEY (.obj (.cons "1" (.str "Alice") .nil)) .nil)),
      true, fun _ => Option.none⟩
    (.cons OWNER_NAME_CACHE_KEY (.obj (.cons "1" (.str "Alice") .nil)) .nil)
    rfl (by decide) rfl

/-- C7: with `force_refresh=true` the cache is never consulted: a fetch
is issued for every parsed id, in order. -/
theorem resolve_force_refetch (ids : Option (List PyValue)) (csv : Option String)
    (w : World) (d : JPairs) (hd : _load_all w = .obj d) :
    ∃ o : ResolveOut, resolve_owner_names ids csv true w = .ok o ∧
      o.fetched = _parse_steam_ids ids csv := by
  by_cases hne : _parse_steam_ids ids csv = []
  · refine ⟨⟨"\x7b\x7d", [], [], w, false, [], Option.none⟩, by simp [resolve_owner_names, hne], ?_⟩
    rw [hne]
  · simp only [resolve_owner_names, if_neg hne, hd]
    rcases hrl : resolveLoop w.net true (_parse_steam_ids ids csv)
        (_normalize_owner_name_cache ((lookupP d OWNER_NAME_CACHE_KEY).getD .null)) [] false
      with ⟨c, r, u, f⟩
    have hf : f = _parse_steam_ids ids csv :=
      resolveLoop_fetched_force w.net (_parse_steam_ids ids csv) _ _ _ c r u f hrl
    cases u with
    | true => exact ⟨_, rfl, hf⟩
    | false => exact ⟨_, rfl, hf⟩

/-- Witness for C7 at a concrete input. -/
theorem resolve_force_refetch_witness :
    ∃ o : ResolveOut,
      resolve_owner_names Option.none (some "1,2") true
        ⟨.absent, true, fun _ => Option.none⟩ = .ok o ∧
      o.fetched = _parse_steam_ids Option.none (some "1,2") :=
  resolve_force_refetch Option.none (some "1,2") ⟨.absent, true, fun _ => Option.none⟩ .nil rfl

/-- C8: the returned mapping holds exactly the ids that resolved to a
nonempty name: a parsed id's entry is its `resolvedName` (truthy cache
hit, else fetch), an unresolved parsed id neither appears in the result
nor has its cache entry changed, an unparsed id is absent, and every
returned name is nonempty. -/
theorem resolve_result_exact (ids : Option (List PyValue)) (csv : Option String)
    (force : Bool) (w : World) (d : JPairs) (cache0 : List (String × String))
    (hd : _load_all w = .obj d)
    (hc0 : _normalize_owner_name_cache ((lookupP d OWNER_NAME_CACHE_KEY).getD .null) = cache0) :
    ∃ o : ResolveOut, resolve_owner_names ids csv force w = .ok o ∧
      (∀ id ∈ _parse_steam_ids ids csv,
        lookupS o.resultMap id = resolvedName w.net force cache0 id
        ∧ (resolvedName w.net force cache0 id = Option.none →
            lookupS o.cacheMap id = lookupS cache0 id))
      ∧ (∀ id, id ∉ _parse_steam_ids ids csv → lookupS o.resultMap id = Option.none)
      ∧ (∀ id n, lookupS o.resultMap id = some n → n ≠ "") := by
  by_cases hne : _parse_steam_ids ids csv = []
  · refine ⟨⟨"\x7b\x7d", [], [], w, false, [], Option.none⟩,
      by simp [resolve_owner_names, hne], ?_, ?_, ?_⟩
    · intro id hmem
      rw [hne] at hmem
      exact absurd hmem (List.not_mem_nil id)
    · intro id _
      rfl
    · intro id n h
      simp [lookupS] at h
  · have hnd := parse_steam_ids_nodup ids csv
    simp only [resolve_owner_names, if_neg hne, hd, hc0]
    rcases hrl : resolveLoop w.net force (_parse_steam_ids ids csv) cache0 [] false
      with ⟨c, r, u, f⟩
    have hmain : ∀ id ∈ _parse_steam_ids ids csv,
        lookupS r id = resolvedName w.net force cache0 id
        ∧ (resolvedName w.net force cache0 id = Option.none →
            lookupS c id = lookupS cache0 id) := by
      intro id hmem
      obtain ⟨g1, g2, g3, _⟩ := resolveLoop_mem w.net force id (_parse_steam_ids ids csv)
        cache0 [] false c r u f hnd hmem hrl
      refine ⟨?_, g3⟩
      cases hres : resolvedName w.net force cache0 id with
      | some n => exact g1 n hres
      | none => exact (g2 hres).trans rfl
    have habsent : ∀ id, id ∉ _parse_steam_ids ids csv → lookupS r id = Option.none := by
      intro id hnot
      exact ((resolveLoop_frame w.net force id (_parse_steam_ids ids csv) cache0 [] false
        c r u f hnot hrl).2.1).trans rfl
    have hvals : ∀ id n, lookupS r id = some n → n ≠ "" :=
      resolveLoop_result_val_ne w.net force (_parse_steam_ids ids csv) cache0 [] false
        c r u f (by intro i n h; simp [lookupS] at h) hrl
    cases u with
    | true => exact ⟨_, rfl, hmain, habsent, hvals⟩
    | false => exact ⟨_, rfl, hmain, habsent, hvals⟩

/-- Witness for C8 at a concrete input (id `"1"` cached, id `"2"`
fetched, id `"3"` failing; only `"1"` and `"2"` are returned). -/
theorem resolve_result_exact_witness :
    ∃ o : ResolveOut,
      resolve_owner_names Option.none (some "1,2,3") false
        ⟨.json (.obj (.cons OWNER_NAME_CACHE_KEY (.obj (.cons "1" (.str "Alice") .nil)) .nil)),
          true, fun i => if i = "2" then some "Bob" else Option.none⟩ = .ok o ∧
      (∀ id ∈ _parse_steam_ids Option.none (some "1,2,3"),
        lookupS o.resultMap id
          = resolvedName (fun i => if i = "2" then some "Bob" else Option.none) false
              [("1", "Alice")] id
        ∧ (resolvedName (fun i => if i = "2" then some "Bob" else Option.none) false
              [("1", "Alice")] id = Option.none →
            lookupS o.cacheMap id = lookupS [("1", "Alice")] id))
      ∧ (∀ id, id ∉ _parse_steam_ids Option.none (some "1,2,3") →
          lookupS o.resultMap id = Option.none)
      ∧ (∀ id n, lookupS o.resultMap id = some n → n ≠ "") :=
  resolve_result_exact Option.none (some "1,2,3") false
    ⟨.json (.obj (.cons OWNER_NAME_CACHE_KEY (.obj (.cons "1" (.str "Alice") .nil)) .nil)),
      true, fun i => if i = "2" then some "Bob" else Option.none⟩
    (.cons OWNER_NAME_CACHE_KEY (.obj (.cons "1" (.str "Alice") .nil)) .nil)
    [("1", "Alice")] rfl rfl

/-- C9 (counterexample): when the readable persisted file holds a JSON
value that is not an object (here an empty array), the three operations
raise (`AttributeError` from `data.get`, `TypeError` from item
assignment) instead of degrading, so they are not total as claimed. -/
theorem storage_raises_on_non_object_file :
    storage_get (some "k") ⟨.json (.arr .nil), true, fun _ => Option.none⟩
      = .error .attributeError ∧
    storage_set (some "k") (PyValue.str "v") ⟨.json (.arr .nil), true, fun _ => Option.none⟩
      = .error .typeError ∧
    resolve_owner_names Option.none (some "1") false ⟨.json (.arr .nil), true, fun _ => Option.none⟩
      = .error .attributeError :=
  ⟨rfl, rfl, rfl⟩

/-- C9 (amended): provided the persisted file is absent, unreadable or
holds a JSON object, `storage_get`, `storage_set` and
`resolve_owner_names` are total — they never raise; moreover a file-read
failure behaves as an empty document, a failing write returns `false`
leaving the world unchanged, and a network failure behaves as an
unresolved id. -/
theorem total_on_object_file (key : Option String) (v : PyValue)
    (ids : Option (List PyValue)) (csv : Option String) (force : Bool)
    (w : World) (d : JPairs) (id : String) (hd : _load_all w = .obj d) :
    (∃ rv, storage_get key w = .ok rv)
    ∧ (∃ rb, storage_set key v w = .ok rb)
    ∧ (∃ o, resolve_owner_names ids csv force w = .ok o)
    ∧ (∀ (wk : Bool) (net : String → Option String),
        _load_all ⟨FileState.unreadable, wk, net⟩ = .obj .nil)
    ∧ (w.writeOk = false → ∀ dd, _write_all dd w = (false, w))
    ∧ (w.net id = Option.none →
        _fetch_owner_name_from_profile_xml w.net id = Option.none) := by
  refine ⟨?_, ?_, ?_, fun wk net => rfl, ?_, ?_⟩
  · cases key with
    | none => exact ⟨.null, rfl⟩
    | some k =>
      refine ⟨(lookupP d k).getD .null, ?_⟩
      simp [storage_get, hd]
  · cases key with
    | none => exact ⟨(false, w), rfl⟩
    | some k =>
      cases hsv : serializeValue v with
      | none => exact ⟨(false, w), by simp [storage_set, hsv]⟩
      | some s =>
        refine ⟨_write_all (setP d k (.str s)) w, ?_⟩
        simp [storage_set, hsv, hd]
  · by_cases hne : _parse_steam_ids ids csv = []
    · refine ⟨⟨"\x7b\x7d", [], [], w, false, [], Option.none⟩, ?_⟩
      simp [resolve_owner_names, hne]
    · simp only [resolve_owner_names, if_neg hne, hd]
      rcases hrl : resolveLoop w.net force (_parse_steam_ids ids csv)
          (_normalize_owner_name_cache ((lookupP d OWNER_NAME_CACHE_KEY).getD .null)) [] false
        with ⟨c, r, u, f⟩
      cases u with
      | true => exact ⟨_, rfl⟩
      | false => exact ⟨_, rfl⟩
  · intro hwk dd
    simp [_write_all, hwk]
  · intro hn
    simp [_fetch_owner_name_from_profile_xml, hn]

/-- Witness for the amended C9 at a concrete input. -/
theorem total_on_object_file_witness :
    (∃ rv, storage_get (some "k") ⟨.absent, false, fun _ => Option.none⟩ = .ok rv)
    ∧ (∃ rb, storage_set (some "k") (PyValue.str "v")
        ⟨.absent, false, fun _ => Option.none⟩ = .ok rb)
    ∧ (∃ o, resolve_owner_names Option.none (some "1") false
        ⟨.absent, false, fun _ => Option.none⟩ = .ok o)
    ∧ (∀ (wk : Bool) (net : String → Option String),
        _load_all ⟨FileState.unreadable, wk, net⟩ = .obj .nil)
    ∧ ((⟨.absent, false, fun _ => Option.none⟩ : World).writeOk = false →
        ∀ dd, _write_all dd ⟨.absent, false, fun _ => Option.none⟩
          = (false, ⟨.absent, false, fun _ => Option.none⟩))
    ∧ ((⟨.absent, false, fun _ => Option.none⟩ : World).net "1" = Option.none →
        _fetch_owner_name_from_profile_xml
          (World.net ⟨.absent, false, fun _ => Option.none⟩) "1" = Option.none) :=
  total_on_object_file (some "k") (PyValue.str "v") Option.none (some "1") false
    ⟨.absent, false, fun _ => Option.none⟩ .nil "1" rfl

/-- C10: an id cached before a forced refresh whose re-fetch fails keeps
its old cache entry (it is not erased) even though it is absent from the
result, and the store is rewritten exactly when at least one fetch
succeeded — the rewritten document then carrying the serialized final
cache, old name included. -/
theorem force_fail_preserves_cache (ids : Option (List PyValue)) (csv : Option String)
    (id name : String) (w : World) (d : JPairs) (cache0 : List (String × String))
    (hd : _load_all w = .obj d)
    (hc0 : _normalize_owner_name_cache ((lookupP d OWNER_NAME_CACHE_KEY).getD .null) = cache0)
    (hmem : id ∈ _parse_steam_ids ids csv)
    (hcache : lookupS cache0 id = some name)
    (hfail : _fetch_owner_name_from_profile_xml w.net id = Option.none) :
    ∃ o : ResolveOut, resolve_owner_names ids csv true w = .ok o ∧
      lookupS o.cacheMap id = some name ∧
      lookupS o.resultMap id = Option.none ∧
      (o.written = Option.none ↔
        ∀ i ∈ _parse_steam_ids ids csv,
          _fetch_owner_name_from_profile_xml w.net i = Option.none) ∧
      (∀ dd, o.written = some dd →
        lookupP dd OWNER_NAME_CACHE_KEY = some (.str (dumps (jsonOfMap o.cacheMap)))) := by
  have hne : ¬(_parse_steam_ids ids csv = []) := fun he =>
    absurd (he ▸ hmem) (List.not_mem_nil id)
  have hnd := parse_steam_ids_nodup ids csv
  have hres : resolvedName w.net true cache0 id = Option.none := by
    simp [resolvedName, cacheHit, strTruthy, hfail]
  simp only [resolve_owner_names, if_neg hne, hd, hc0]
  rcases hrl : resolveLoop w.net true (_parse_steam_ids ids csv) cache0 [] false
    with ⟨c, r, u, f⟩
  obtain ⟨g1, g2, g3, g4⟩ := resolveLoop_mem w.net true id (_parse_steam_ids ids csv)
    cache0 [] false c r u f hnd hmem hrl
  have hcid : lookupS c id = some name := (g3 hres).trans hcache
  have hrid : lookupS r id = Option.none := (g2 hres).trans rfl
  have hupd : u = ((_parse_steam_ids ids csv).any fun i =>
      (_fetch_owner_name_from_profile_xml w.net i).isSome) := by
    have := resolveLoop_updated_force w.net (_parse_steam_ids ids csv)
      cache0 [] false c r u f hrl
    simpa using this
  cases u with
  | true =>
    refine ⟨_, rfl, hcid, hrid, ?_, ?_⟩
    · constructor
      · intro habs
        exact absurd habs (by simp)
      · intro hall
        have : (_parse_steam_ids ids csv).any (fun i =>
            (_fetch_owner_name_from_profile_xml w.net i).isSome) = false := by
          rw [List.any_eq_false]
          intro i hi
          rw [hall i hi]
          simp
        rw [this] at hupd
        exact absurd hupd (by simp)
    · intro dd hdd
      simp only [Option.some_inj] at hdd
      rw [← hdd]
      exact lookupP_setP_self d OWNER_NAME_CACHE_KEY (.str (dumps (jsonOfMap c)))
  | false =>
    refine ⟨_, rfl, hcid, hrid, ?_, ?_⟩
    · constructor
      · intro _ i hi
        have hany : (_parse_steam_ids ids csv).any (fun i =>
            (_fetch_owner_name_from_profile_xml w.net i).isSome) = false := hupd.symm
        have := List.any_eq_false.mp hany i hi
        cases hfi : _fetch_owner_name_from_profile_xml w.net i with
        | none => rfl
        | some x => rw [hfi] at this; simp at this
      · intro _
        rfl
    · intro dd hdd
      exact absurd hdd (by simp)

/-- Witness for C10 at a concrete input: `"1"` is cached as `"Old"`, its
forced re-fetch fails, `"2"`'s fetch succeeds; the rewrite keeps
`"Old"`. -/
theorem force_fail_preserves_cache_witness :
    ∃ o : ResolveOut,
      resolve_owner_names Option.none (some "1,2") true
        ⟨.json (.obj (.cons OWNER_NAME_CACHE_KEY (.obj (.cons "1" (.str "Old") .nil)) .nil)),
          true, fun i => if i = "2" then some "New2" else Option.none⟩ = .ok o ∧
      lookupS o.cacheMap "1" = some "Old" ∧
      lookupS o.resultMap "1" = Option.none ∧
      (o.written = Option.none ↔
        ∀ i ∈ _parse_steam_ids Option.none (some "1,2"),
          _fetch_owner_name_from_profile_xml
            (fun i => if i = "2" then some "New2" else Option.none) i = Option.none) ∧
      (∀ dd, o.written = some dd →
        lookupP dd OWNER_NAME_CACHE_KEY = some (.str (dumps (jsonOfMap o.cacheMap)))) :=
  force_fail_preserves_cache Option.none (some "1,2") "1" "Old"
    ⟨.json (.obj (.cons OWNER_NAME_CACHE_KEY (.obj (.cons "1" (.str "Old") .nil)) .nil)),
      true, fun i => if i = "2" then some "New2" else Option.none⟩
    (.cons OWNER_NAME_CACHE_KEY (.obj (.cons "1" (.str "Old") .nil)) .nil)
    [("1", "Old")] rfl rfl (by decide) rfl rfl

end SFS
